import Mathlib

/-!
Verification of `src/proxy.c` from Crispy-lang/proxyserver.

The development shallowly embeds the string-processing core of the proxy:

* `parse_uri`  (proxy.c lines 250-315): URI decomposition into host, port, path;
* `build_get` (lines 158-166): the outbound request line;
* `build_requesthdrs` (lines 177-204): the header rewrite loop;
* `read_n_send` (lines 217-237): the upstream-to-client relay with its
  error classification;
* the `strcasecmp`-based method check of `doit` (lines 124-128).

C strings are embedded as `List Char` (NUL-free by construction, as produced
by `sscanf %s` and `rio_readlineb`); the client header stream is a finite
list of lines; socket reads and writes in the relay are a finite list of
events.  All definitions are computable and mirror the C control flow
branch for branch.
-/

/-! ### C string-search primitives

`startsWithL s p` tests whether `p` is an initial segment of `s`;
`hasSub s p` is C's `strstr(s, p) != NULL` (containment anywhere);
`breakAt c s` is `strpbrk(s, {c})` followed by skipping the found
character (the way `parse_uri` consumes the `':'`), while
`breakAtKeep c s` keeps the found character at the head of the second
component (the way `parse_uri` keeps the `'/'` in the path). -/

def startsWithL : List Char → List Char → Bool
  | _, [] => true
  | [], _ :: _ => false
  | x :: xs, y :: ys => x == y && startsWithL xs ys

def hasSub : List Char → List Char → Bool
  | [], pat => pat.isEmpty
  | x :: xs, pat => startsWithL (x :: xs) pat || hasSub xs pat

def breakAt (c : Char) : List Char → Option (List Char × List Char)
  | [] => none
  | x :: xs =>
    if x = c then some ([], xs)
    else (breakAt c xs).map (fun p => (x :: p.1, p.2))

def breakAtKeep (c : Char) : List Char → Option (List Char × List Char)
  | [] => none
  | x :: xs =>
    if x = c then some ([], x :: xs)
    else (breakAtKeep c xs).map (fun p => (x :: p.1, p.2))

/-! ### parse_uri (proxy.c lines 250-315) -/

def httpL : List Char := "http://".toList
def httpU : List Char := "HTTP://".toList
def eighty : List Char := "80".toList
def slash : List Char := "/".toList

/-- Lines 258-261: `if (strstr(uri,"http://") || strstr(uri,"HTTP://")) curr += strlen("http://");`.
Note the C tests substring containment anywhere (`strstr`), in exactly the two
spellings `http://` and `HTTP://`, yet always advances 7 characters from the
start of the string. -/
def stripScheme (uri : List Char) : List Char :=
  if hasSub uri httpL || hasSub uri httpU then uri.drop 7 else uri

/-- Lines 262-302: the splitting of `curr` into host, port, path before the
defaults are applied.  First branch: `strpbrk(curr, ":")` found — host is
everything before the `':'`; then `strpbrk(curr, "/")` splits port from path
(path keeps the `'/'`), or the whole remainder is the port.  Second branch: no
`':'` anywhere — `strpbrk(curr, "/")` splits host from path, or the whole
remainder is the host.  An empty component stands for the C's
never-written-to buffer (`*port = '\0'` etc.). -/
def parseAfterColon (h rest : List Char) : List Char × List Char × List Char :=
  match breakAtKeep '/' rest with
  | some (po, pa) => (h, po, pa)
  | none => (h, rest, [])

def parseNoColon (curr : List Char) : List Char × List Char × List Char :=
  match breakAtKeep '/' curr with
  | some (h, pa) => (h, [], pa)
  | none => (curr, [], [])

def rawParse (curr : List Char) : List Char × List Char × List Char :=
  match breakAt ':' curr with
  | some (h, rest) => parseAfterColon h rest
  | none => parseNoColon curr

/-- Lines 305-312: `if (*path == 0) strncpy(path, "/", 1); if (*port == 0) strncpy(port, "80", 2);`. -/
def withDefaults (t : List Char × List Char × List Char) :
    List Char × List Char × List Char :=
  (t.1, if t.2.1 = [] then eighty else t.2.1, if t.2.2 = [] then slash else t.2.2)

/-- `parse_uri` (proxy.c lines 250-315): scheme skip, three-way split, defaults. -/
def parse_uri (uri : List Char) : List Char × List Char × List Char :=
  withDefaults (rawParse (stripScheme uri))

example : parse_uri "cs.cmu.edu:8080/index.html".toList =
    ("cs.cmu.edu".toList, "8080".toList, "/index.html".toList) := by decide

example : parse_uri "http://cs.cmu.edu".toList =
    ("cs.cmu.edu".toList, "80".toList, "/".toList) := by decide

example : parse_uri "cs.cmu.edu/a/b".toList =
    ("cs.cmu.edu".toList, "80".toList, "/a/b".toList) := by decide

/-! ### build_get (proxy.c lines 158-166)

`strcpy(http_hdr, method); strcat " "; strcat path; strcat " "; strcat
version; strcat "\n"`. -/

def build_get (method path version : List Char) : List Char :=
  method ++ [' '] ++ path ++ [' '] ++ version ++ ['\n']

/-! ### build_requesthdrs (proxy.c lines 177-204)

The client header stream is embedded as the finite list of lines that
`Rio_readlineb` returns, each line with its original terminator.  The
function's output is embedded as the list of pieces `strcat`-ed onto
`http_hdr`, in order; the flat C buffer is their concatenation.  The first
line is handled before the loop: if it does not contain `"Host: "` the
synthesized `Host: <host>\n` piece is appended (and the line itself is
appended by nothing — the C discards it); otherwise the line is appended
as-is.  The loop then tests the previous line against `"\r\n"` before
reading the next; each line read inside the loop is classified by
`strstr` containment: `"User-Agent: "` lines become the fixed user-agent
header, `"Connection: "` lines become the forced close pair, anything
else — including the final `"\r\n"` — is appended unchanged.  An
exhausted stream models end-of-input: nothing more is appended. -/

def uaKey : List Char := "User-Agent: ".toList
def connKey : List Char := "Connection: ".toList
def hostKey : List Char := "Host: ".toList
def crlf : List Char := "\r\n".toList

/-- Line 47: the fixed `user_agent_hdr` literal. -/
def user_agent_hdr : List Char :=
  "User-Agent: Mozilla/5.0 (X11; Linux x86_64; rv:10.0.3) Gecko/20120305 Firefox/10.0.3\n".toList

def connLine : List Char := "Connection: close\n".toList
def pconnLine : List Char := "Proxy-Connection: close\n".toList

/-- Lines 183-185: the synthesized `"Host: " ++ host ++ "\n"` piece. -/
def hostLine (host : List Char) : List Char := hostKey ++ host ++ ['\n']

/-- Lines 193-201: the classification of one line read inside the loop. -/
def classifyLine (l : List Char) : List (List Char) :=
  if hasSub l uaKey then [user_agent_hdr]
  else if hasSub l connKey then [connLine, pconnLine]
  else [l]

/-- Lines 190-202: `while (strcmp(buf, "\r\n")) { Rio_readlineb(...); ... }`.
`prev` is the line currently in `buf` when the guard runs. -/
def hdrLoop (prev : List Char) : List (List Char) → List (List Char)
  | [] => []
  | l :: rest => if prev = crlf then [] else classifyLine l ++ hdrLoop l rest

/-- Lines 177-204 assembled.  The empty stream is left degenerate (the C
would read from an uninitialized buffer there); every claim below supplies
at least one line. -/
def build_requesthdrs (stream : List (List Char)) (host : List Char) :
    List (List Char) :=
  match stream with
  | [] => []
  | first :: rest =>
    (if hasSub first hostKey then [first] else [hostLine host]) ++ hdrLoop first rest

/-- The lines the loop actually consumes: everything up to and including the
first `"\r\n"` (or the whole rest of the stream if no terminator comes). -/
def consumedLines (prev : List Char) : List (List Char) → List (List Char)
  | [] => []
  | l :: rest => if prev = crlf then [] else l :: consumedLines l rest

/-! ### read_n_send (proxy.c lines 217-237)

One call to `rio_readnb` together with the fate of the matching
`rio_writen` is one event: `chunk ok` is a positive read whose forwarding
write succeeded fully (`ok = true`) or came up short or failed
(`ok = false`); `eof` is a zero read; `rerr` is a negative read.  The
result records which error response (if any) `clienterror` is called
with, plus the number of reads performed. -/

inductive RelayEv where
  | chunk : Bool → RelayEv
  | eof : RelayEv
  | rerr : RelayEv
deriving DecidableEq, Repr

inductive RelayOut where
  | ok
  | err400
  | err502
  | blocked
deriving DecidableEq, Repr

def read_n_send : List RelayEv → RelayOut × Nat
  | [] => (RelayOut.blocked, 0)
  | RelayEv.chunk ok :: rest =>
    if ok then
      let r := read_n_send rest
      (r.1, r.2 + 1)
    else (RelayOut.err400, 1)
  | RelayEv.eof :: _ => (RelayOut.ok, 1)
  | RelayEv.rerr :: _ => (RelayOut.err502, 1)

/-! ### The method check of doit (proxy.c lines 122-128)

`sscanf(buf, "%s %s %s", ...)` produces NUL-free tokens; then
`if (strcasecmp(method, "GET")) clienterror(..., "501", ...)`.
`strcasecmp` compares `tolower` of the bytes, the terminating NUL
included; `lowN` is `tolower` on byte values in the C locale. -/

def lowN (n : Nat) : Nat := if 65 ≤ n ∧ n ≤ 90 then n + 32 else n

def strcasecmpZ : List Char → List Char → Int
  | [], [] => 0
  | [], y :: _ => 0 - (lowN y.toNat : Int)
  | x :: _, [] => (lowN x.toNat : Int)
  | x :: xs, y :: ys =>
    if lowN x.toNat = lowN y.toNat then strcasecmpZ xs ys
    else (lowN x.toNat : Int) - (lowN y.toNat : Int)

/-- Line 124: nonzero `strcasecmp(method, "GET")` sends the 501 response and
returns from `doit`. -/
def sends501 (method : List Char) : Bool :=
  strcasecmpZ method "GET".toList != 0

/-! ### Lemmas about the string-search primitives -/

theorem startsWithL_iff (s p : List Char) :
    startsWithL s p = true ↔ ∃ t, s = p ++ t := by
  induction p generalizing s with
  | nil => simp [startsWithL]
  | cons y ys ih =>
    cases s with
    | nil => simp [startsWithL]
    | cons x xs =>
      simp only [startsWithL, Bool.and_eq_true, beq_iff_eq, ih, List.cons_append,
        List.cons.injEq]
      constructor
      · rintro ⟨rfl, t, rfl⟩; exact ⟨t, rfl, rfl⟩
      · rintro ⟨t, rfl, rfl⟩; exact ⟨rfl, t, rfl⟩

theorem hasSub_iff (s p : List Char) :
    hasSub s p = true ↔ ∃ a b, s = a ++ p ++ b := by
  induction s with
  | nil =>
    simp only [hasSub, List.isEmpty_iff]
    constructor
    · rintro rfl; exact ⟨[], [], rfl⟩
    · rintro ⟨a, b, h⟩
      rcases List.append_eq_nil.mp h.symm with ⟨h1, h2⟩
      exact (List.append_eq_nil.mp h1).2
  | cons x xs ih =>
    simp only [hasSub, Bool.or_eq_true, startsWithL_iff, ih]
    constructor
    · rintro (⟨t, ht⟩ | ⟨a, b, hab⟩)
      · exact ⟨[], t, by simp [ht]⟩
      · exact ⟨x :: a, b, by simp [hab]⟩
    · rintro ⟨a, b, hab⟩
      cases a with
      | nil => exact Or.inl ⟨b, by simpa using hab⟩
      | cons a0 as =>
        right
        refine ⟨as, b, ?_⟩
        have := hab
        simp only [List.cons_append] at this
        exact (List.cons.injEq _ _ _ _).mp this |>.2

theorem hasSub_append_self (p r : List Char) : hasSub (p ++ r) p = true :=
  (hasSub_iff _ _).mpr ⟨[], r, by simp⟩

theorem breakAt_eq_none {c : Char} {l : List Char} (h : c ∉ l) :
    breakAt c l = none := by
  induction l with
  | nil => rfl
  | cons x xs ih =>
    simp only [List.mem_cons, not_or] at h
    simp [breakAt, Ne.symm h.1, ih h.2]

theorem breakAt_split {c : Char} {l : List Char} (r : List Char) (h : c ∉ l) :
    breakAt c (l ++ c :: r) = some (l, r) := by
  induction l with
  | nil => simp [breakAt]
  | cons x xs ih =>
    simp only [List.mem_cons, not_or] at h
    simp [breakAt, Ne.symm h.1, ih h.2]

theorem breakAtKeep_eq_none {c : Char} {l : List Char} (h : c ∉ l) :
    breakAtKeep c l = none := by
  induction l with
  | nil => rfl
  | cons x xs ih =>
    simp only [List.mem_cons, not_or] at h
    simp [breakAtKeep, Ne.symm h.1, ih h.2]

theorem breakAtKeep_split {c : Char} {l : List Char} (r : List Char) (h : c ∉ l) :
    breakAtKeep c (l ++ c :: r) = some (l, c :: r) := by
  induction l with
  | nil => simp [breakAtKeep]
  | cons x xs ih =>
    simp only [List.mem_cons, not_or] at h
    simp [breakAtKeep, Ne.symm h.1, ih h.2]

theorem breakAtKeep_some_head {c : Char} {l a b : List Char}
    (h : breakAtKeep c l = some (a, b)) : ∃ t, b = c :: t := by
  induction l generalizing a with
  | nil => simp [breakAtKeep] at h
  | cons x xs ih =>
    by_cases hx : x = c
    · subst hx
      simp [breakAtKeep] at h
      exact ⟨xs, h.2.symm⟩
    · simp only [breakAtKeep, if_neg hx, Option.map_eq_some'] at h
      rcases h with ⟨⟨a', b'⟩, hsome, heq⟩
      cases heq
      exact ih hsome

/-! ### Scheme-stripping lemmas -/

theorem drop_seven_httpL (r : List Char) : (httpL ++ r).drop 7 = r := rfl

theorem stripScheme_append_httpL (r : List Char) :
    stripScheme (httpL ++ r) = r := by
  simp [stripScheme, hasSub_append_self, drop_seven_httpL]

theorem stripScheme_of_no_scheme {s : List Char}
    (h1 : hasSub s httpL = false) (h2 : hasSub s httpU = false) :
    stripScheme s = s := by
  simp [stripScheme, h1, h2]

/-! ### Structure of rawParse results -/

theorem parseAfterColon_path_shape (h rest : List Char) :
    (parseAfterColon h rest).2.2 = [] ∨
      ∃ t, (parseAfterColon h rest).2.2 = '/' :: t := by
  unfold parseAfterColon
  rcases hk : breakAtKeep '/' rest with _ | ⟨po, pa⟩
  · simp [hk]
  · rcases breakAtKeep_some_head hk with ⟨t, ht⟩
    simp [hk, ht]

theorem parseNoColon_path_shape (curr : List Char) :
    (parseNoColon curr).2.2 = [] ∨ ∃ t, (parseNoColon curr).2.2 = '/' :: t := by
  unfold parseNoColon
  rcases hk : breakAtKeep '/' curr with _ | ⟨h2, pa⟩
  · simp [hk]
  · rcases breakAtKeep_some_head hk with ⟨t, ht⟩
    simp [hk, ht]

theorem rawParse_path_shape (curr : List Char) :
    (rawParse curr).2.2 = [] ∨ ∃ t, (rawParse curr).2.2 = '/' :: t := by
  unfold rawParse
  rcases hb : breakAt ':' curr with _ | ⟨h, rest⟩
  · exact parseNoColon_path_shape curr
  · exact parseAfterColon_path_shape h rest

/-- Claim C5, amended: for every input string, the port produced by
`parse_uri` is non-empty and the path begins with `'/'`.  (The original
claim's remaining conjuncts — host empty only on empty input, port numeric
— are refuted by `c5_counterexample`.) -/
theorem c5_amended (uri : List Char) :
    (parse_uri uri).2.1 ≠ [] ∧ ((parse_uri uri).2.2).head? = some '/' := by
  unfold parse_uri withDefaults
  constructor
  · by_cases h : (rawParse (stripScheme uri)).2.1 = [] <;> simp [h, eighty]
  · rcases rawParse_path_shape (stripScheme uri) with h | ⟨t, h⟩ <;>
      simp [h, slash]

/-- Claim C5, counterexample: on the non-empty input `":x"` the host comes
back empty and the port comes back as the non-numeric string `"x"`. -/
theorem c5_counterexample :
    parse_uri ":x".toList = ([], ['x'], slash) ∧
    ":x".toList ≠ [] ∧ ('x').isDigit = false := by decide

/-- Claim C6, amended: the scheme test is `strstr` containment of the exact
spellings `"http://"`/`"HTTP://"` anywhere in the input (7 characters are
then dropped from the front), not a case-insensitive check that the input
starts with the prefix; an input containing neither spelling anywhere
decomposes identically to the same input with `"http://"` prepended. -/
theorem c6_amended (s : List Char)
    (h1 : hasSub s httpL = false) (h2 : hasSub s httpU = false) :
    parse_uri (httpL ++ s) = parse_uri s := by
  unfold parse_uri
  rw [stripScheme_append_httpL, stripScheme_of_no_scheme h1 h2]

theorem c6_witness : parse_uri (httpL ++ "h".toList) = parse_uri "h".toList :=
  c6_amended "h".toList (by decide) (by decide)

/-- Claim C6, counterexample: `"Http://h"` starts with the scheme prefix
under a case-insensitive comparison, yet `parse_uri` does not skip it — the
decomposition keeps `"Http"` as the host instead of `"h"`. -/
theorem c6_counterexample :
    (("Http://h".toList.take 7).map (fun c => lowN c.toNat) =
      "http://".toList.map Char.toNat) ∧
    parse_uri "Http://h".toList = ("Http".toList, eighty, "//h".toList) ∧
    parse_uri "Http://h".toList ≠ parse_uri "h".toList := by decide

/-! ### Claim C1: parse_uri on well-formed absolute URIs -/

theorem isDigit_ne_colon_slash {c : Char} (h : c.isDigit = true) :
    c ≠ ':' ∧ c ≠ '/' := by
  constructor <;> rintro rfl <;> exact absurd h (by decide)

theorem rawParse_host_port_path {host port : List Char} (p : List Char)
    (hch : ':' ∉ host) (hsp : '/' ∉ port) :
    rawParse (host ++ ':' :: (port ++ '/' :: p)) = (host, port, '/' :: p) := by
  have h1 : rawParse (host ++ ':' :: (port ++ '/' :: p)) =
      parseAfterColon host (port ++ '/' :: p) := by
    unfold rawParse
    rw [breakAt_split _ hch]
  rw [h1]
  unfold parseAfterColon
  rw [breakAtKeep_split _ hsp]

theorem rawParse_host_port {host port : List Char}
    (hch : ':' ∉ host) (hsp : '/' ∉ port) :
    rawParse (host ++ ':' :: port) = (host, port, []) := by
  have h1 : rawParse (host ++ ':' :: port) = parseAfterColon host port := by
    unfold rawParse
    rw [breakAt_split _ hch]
  rw [h1]
  unfold parseAfterColon
  rw [breakAtKeep_eq_none hsp]

theorem rawParse_host_path {host : List Char} (p : List Char)
    (hch : ':' ∉ host) (hsh : '/' ∉ host) (hcp : ':' ∉ p) :
    rawParse (host ++ '/' :: p) = (host, [], '/' :: p) := by
  have hnc : ':' ∉ host ++ '/' :: p := by
    simp only [List.mem_append, List.mem_cons, not_or]
    exact ⟨hch, by decide, hcp⟩
  have h1 : rawParse (host ++ '/' :: p) = parseNoColon (host ++ '/' :: p) := by
    unfold rawParse
    rw [breakAt_eq_none hnc]
  rw [h1]
  unfold parseNoColon
  rw [breakAtKeep_split _ hsh]

theorem rawParse_host {host : List Char}
    (hch : ':' ∉ host) (hsh : '/' ∉ host) :
    rawParse host = (host, [], []) := by
  have h1 : rawParse host = parseNoColon host := by
    unfold rawParse
    rw [breakAt_eq_none hch]
  rw [h1]
  unfold parseNoColon
  rw [breakAtKeep_eq_none hsh]

/-- Claim C1, amended: for a well-formed absolute URI
`http://host[:port][/path]` — host non-empty without `':'` or `'/'`, port a
non-empty digit string — `parse_uri` returns the literal substrings, with
port defaulting to `"80"` and path to `"/"` when omitted, provided that in
the port-omitted forms the path contains no `':'` (without a port, a `':'`
inside the path is mis-parsed as the host/port separator, see
`c1_counterexample`); the spec's concrete example holds as stated. -/
theorem c1_amended (host port p : List Char)
    (_hh1 : host ≠ []) (hh2 : ∀ c ∈ host, c ≠ ':' ∧ c ≠ '/')
    (hp1 : port ≠ []) (hp2 : ∀ c ∈ port, c.isDigit = true) :
    parse_uri (httpL ++ (host ++ ':' :: (port ++ '/' :: p))) =
      (host, port, '/' :: p) ∧
    parse_uri (httpL ++ (host ++ ':' :: port)) = (host, port, slash) ∧
    (':' ∉ p → parse_uri (httpL ++ (host ++ '/' :: p)) =
      (host, eighty, '/' :: p)) ∧
    parse_uri (httpL ++ host) = (host, eighty, slash) ∧
    parse_uri "cs.cmu.edu:8080/index.html".toList =
      ("cs.cmu.edu".toList, "8080".toList, "/index.html".toList) := by
  have hch : ':' ∉ host := fun hm => (hh2 _ hm).1 rfl
  have hsh : '/' ∉ host := fun hm => (hh2 _ hm).2 rfl
  have hsp : '/' ∉ port := fun hm => (isDigit_ne_colon_slash (hp2 _ hm)).2 rfl
  refine ⟨?_, ?_, ?_, ?_, by decide⟩
  · unfold parse_uri
    rw [stripScheme_append_httpL, rawParse_host_port_path p hch hsp]
    simp [withDefaults, hp1]
  · unfold parse_uri
    rw [stripScheme_append_httpL, rawParse_host_port hch hsp]
    simp [withDefaults, hp1]
  · intro hcp
    unfold parse_uri
    rw [stripScheme_append_httpL, rawParse_host_path p hch hsh hcp]
    simp [withDefaults]
  · unfold parse_uri
    rw [stripScheme_append_httpL, rawParse_host hch hsh]
    simp [withDefaults]

theorem c1_witness :
    parse_uri (httpL ++ ("cs.cmu.edu".toList ++ ':' ::
        ("8080".toList ++ '/' :: "index.html".toList))) =
      ("cs.cmu.edu".toList, "8080".toList, '/' :: "index.html".toList) :=
  (c1_amended "cs.cmu.edu".toList "8080".toList "index.html".toList
    (by decide) (by decide) (by decide) (by decide)).1

/-- Claim C1, counterexample: `"http://h/a:b"` is a valid absolute URI —
host `"h"` (non-empty, no `':'` or `'/'`), no port, path `"/a:b"` — yet
`parse_uri` returns host `"h/a"`, port `"b"`, path `"/"` instead of the
literal substrings host `"h"`, default port `"80"`, path `"/a:b"`. -/
theorem c1_counterexample :
    "http://h/a:b".toList = httpL ++ ("h".toList ++ "/a:b".toList) ∧
    ("h".toList ≠ [] ∧ ∀ c ∈ "h".toList, c ≠ ':' ∧ c ≠ '/') ∧
    ("/a:b".toList).head? = some '/' ∧
    parse_uri "http://h/a:b".toList = ("h/a".toList, "b".toList, slash) ∧
    parse_uri "http://h/a:b".toList ≠
      ("h".toList, eighty, "/a:b".toList) := by decide

/-! ### Counting lines in the rewritten header block (claims C2, C3, C7) -/

theorem countP_hdrLoop (q r : List Char → Bool)
    (hk : ∀ l, List.countP r (classifyLine l) = if q l then 1 else 0) :
    ∀ (s : List (List Char)) (prev : List Char),
      List.countP r (hdrLoop prev s) = List.countP q (consumedLines prev s) := by
  intro s
  induction s with
  | nil => intro prev; rfl
  | cons l rest ih =>
    intro prev
    by_cases hp : prev = crlf
    · simp [hdrLoop, consumedLines, hp]
    · by_cases hq : q l <;>
        simp [hdrLoop, consumedLines, hp, List.countP_append, List.countP_cons,
          hk l, hq, ih l, Nat.add_comm]

theorem countP_classify_ua (l : List Char) :
    List.countP (fun x => x == user_agent_hdr) (classifyLine l) =
      if hasSub l uaKey then 1 else 0 := by
  unfold classifyLine
  by_cases h1 : hasSub l uaKey
  · simp [h1]
  · by_cases h2 : hasSub l connKey
    · simp only [h1, h2, if_neg, if_pos, Bool.false_eq_true, if_false, if_true]
      decide
    · have hne : l ≠ user_agent_hdr := by
        rintro rfl
        exact h1 (by decide)
      simp [h1, h2, List.countP_cons, hne]

theorem countP_classify_conn (l : List Char) :
    List.countP (fun x => x == connLine) (classifyLine l) =
      if hasSub l connKey && !hasSub l uaKey then 1 else 0 := by
  unfold classifyLine
  by_cases h1 : hasSub l uaKey
  · simp only [h1, if_true, if_pos]
    simp
    decide
  · by_cases h2 : hasSub l connKey
    · simp only [h1, h2, Bool.false_eq_true, if_false, if_true]
      simp
      decide
    · have hne : l ≠ connLine := by
        rintro rfl
        exact h2 (by decide)
      simp [h1, h2, List.countP_cons, hne]

theorem countP_classify_pconn (l : List Char) :
    List.countP (fun x => x == pconnLine) (classifyLine l) =
      if hasSub l connKey && !hasSub l uaKey then 1 else 0 := by
  unfold classifyLine
  by_cases h1 : hasSub l uaKey
  · simp only [h1, if_true, if_pos]
    simp
    decide
  · by_cases h2 : hasSub l connKey
    · simp only [h1, h2, Bool.false_eq_true, if_false, if_true]
      simp
      decide
    · have hne : l ≠ pconnLine := by
        rintro rfl
        exact h2 (by decide)
      simp [h1, h2, List.countP_cons, hne]

theorem countP_classify_host (l : List Char) :
    List.countP (fun x => hasSub x hostKey) (classifyLine l) =
      if hasSub l hostKey && !hasSub l uaKey && !hasSub l connKey
      then 1 else 0 := by
  unfold classifyLine
  by_cases h1 : hasSub l uaKey
  · simp only [h1, if_true, if_pos]
    simp
    decide
  · by_cases h2 : hasSub l connKey
    · simp only [h1, h2, Bool.false_eq_true, if_false, if_true]
      simp
      decide
    · by_cases h3 : hasSub l hostKey <;>
        simp [h1, h2, h3, List.countP_cons]

theorem hostLine_head (h : List Char) : (hostLine h).head? = some 'H' := rfl

theorem hostLine_ne_ua (h : List Char) : hostLine h ≠ user_agent_hdr := by
  intro e
  have h1 : (hostLine h).head? = some 'H' := hostLine_head h
  rw [e] at h1
  exact absurd h1 (by decide)

theorem hostLine_ne_conn (h : List Char) : hostLine h ≠ connLine := by
  intro e
  have h1 : (hostLine h).head? = some 'H' := hostLine_head h
  rw [e] at h1
  exact absurd h1 (by decide)

theorem hostLine_ne_pconn (h : List Char) : hostLine h ≠ pconnLine := by
  intro e
  have h1 : (hostLine h).head? = some 'H' := hostLine_head h
  rw [e] at h1
  exact absurd h1 (by decide)

theorem hasSub_hostLine (h : List Char) : hasSub (hostLine h) hostKey = true := by
  have e : hostLine h = hostKey ++ (h ++ ['\n']) := by simp [hostLine]
  rw [e]
  exact hasSub_append_self _ _

/-- Claim C2, amended: the outbound block contains exactly one Host-position
line (the first client line when it contains `"Host: "`, else the
synthesized `Host:` line, plus one more per later pass-through line
containing `"Host: "`); it contains exactly one fixed `User-Agent` line per
consumed client line containing `"User-Agent: "`, and exactly one
`Connection: close` and one `Proxy-Connection: close` line per consumed
client line containing `"Connection: "` but not `"User-Agent: "` — in
particular zero of each when the client sent no such header, not one
(see `c2_counterexample`). -/
theorem c2_amended (first : List Char) (rest : List (List Char))
    (host : List Char) :
    List.countP (fun x => hasSub x hostKey)
        (build_requesthdrs (first :: rest) host) =
      1 + List.countP
        (fun x => hasSub x hostKey && !hasSub x uaKey && !hasSub x connKey)
        (consumedLines first rest) ∧
    List.countP (fun x => x == user_agent_hdr)
        (build_requesthdrs (first :: rest) host) =
      List.countP (fun x => hasSub x uaKey) (consumedLines first rest) ∧
    List.countP (fun x => x == connLine)
        (build_requesthdrs (first :: rest) host) =
      List.countP (fun x => hasSub x connKey && !hasSub x uaKey)
        (consumedLines first rest) ∧
    List.countP (fun x => x == pconnLine)
        (build_requesthdrs (first :: rest) host) =
      List.countP (fun x => hasSub x connKey && !hasSub x uaKey)
        (consumedLines first rest) := by
  have hloop_host := countP_hdrLoop _ _ countP_classify_host rest first
  have hloop_ua := countP_hdrLoop _ _ countP_classify_ua rest first
  have hloop_conn := countP_hdrLoop _ _ countP_classify_conn rest first
  have hloop_pconn := countP_hdrLoop _ _ countP_classify_pconn rest first
  refine ⟨?_, ?_, ?_, ?_⟩ <;>
    by_cases hf : hasSub first hostKey
  · simp [build_requesthdrs, hf, List.countP_append, hloop_host,
      List.countP_cons, Nat.add_comm]
  · simp [build_requesthdrs, hf, List.countP_append, hloop_host,
      List.countP_cons, hasSub_hostLine, Nat.add_comm]
  · have hne : first ≠ user_agent_hdr := by
      rintro rfl
      exact absurd hf (by decide)
    simp [build_requesthdrs, hf, List.countP_append, hloop_ua,
      List.countP_cons, hne]
  · simp [build_requesthdrs, hf, List.countP_append, hloop_ua,
      List.countP_cons, hostLine_ne_ua host]
  · have hne : first ≠ connLine := by
      rintro rfl
      exact absurd hf (by decide)
    simp [build_requesthdrs, hf, List.countP_append, hloop_conn,
      List.countP_cons, hne]
  · simp [build_requesthdrs, hf, List.countP_append, hloop_conn,
      List.countP_cons, hostLine_ne_conn host]
  · have hne : first ≠ pconnLine := by
      rintro rfl
      exact absurd hf (by decide)
    simp [build_requesthdrs, hf, List.countP_append, hloop_pconn,
      List.countP_cons, hne]
  · simp [build_requesthdrs, hf, List.countP_append, hloop_pconn,
      List.countP_cons, hostLine_ne_pconn host]

/-- Claim C2, counterexample: a client that sends no headers at all (its
header stream is just the `"\r\n"` terminator) yields an outbound block with
one Host line and zero `User-Agent`, zero `Connection: close` and zero
`Proxy-Connection: close` lines — not exactly one of each as claimed. -/
theorem c2_counterexample :
    build_requesthdrs [crlf] "h".toList = [hostLine "h".toList] ∧
    List.countP (fun x => x == user_agent_hdr)
      (build_requesthdrs [crlf] "h".toList) = 0 ∧
    List.countP (fun x => x == connLine)
      (build_requesthdrs [crlf] "h".toList) = 0 ∧
    List.countP (fun x => x == pconnLine)
      (build_requesthdrs [crlf] "h".toList) = 0 := by decide

/-! ### Pass-through lines (claim C3) -/

/-- A line the loop passes through unchanged: it contains neither
`"User-Agent: "` nor `"Connection: "`. -/
def passThru (l : List Char) : Bool := !hasSub l uaKey && !hasSub l connKey

theorem filter_classify (l : List Char) :
    (classifyLine l).filter passThru = if passThru l then [l] else [] := by
  have hu : passThru user_agent_hdr = false := by decide
  have hc : passThru connLine = false := by decide
  have hpc : passThru pconnLine = false := by decide
  unfold classifyLine
  by_cases h1 : hasSub l uaKey
  · simp [h1, passThru, List.filter_cons, hu]
    decide
  · by_cases h2 : hasSub l connKey
    · simp [h1, h2, passThru, List.filter_cons, hc, hpc]
      decide
    · simp [h1, h2, passThru, List.filter_cons]

theorem filter_hdrLoop : ∀ (s : List (List Char)) (prev : List Char),
    (hdrLoop prev s).filter passThru =
      (consumedLines prev s).filter passThru := by
  intro s
  induction s with
  | nil => intro prev; rfl
  | cons l rest ih =>
    intro prev
    by_cases hp : prev = crlf
    · simp [hdrLoop, consumedLines, hp]
    · by_cases hl : passThru l <;>
        simp [hdrLoop, consumedLines, hp, List.filter_append, filter_classify,
          List.filter_cons, hl, ih l]

/-- Claim C3, amended: the lines of the outbound block that contain neither
`"User-Agent: "` nor `"Connection: "` are exactly the Host-position line
(the first client line when it contains `"Host: "`, else the synthesized
`Host:` line) followed, byte-identical and in original relative order, by
the consumed client lines that contain neither key.  In particular a first
line that is not a `"Host: "` line is NOT re-emitted after the synthesized
Host line — it is dropped (see `c3_counterexample`). -/
theorem c3_amended (first : List Char) (rest : List (List Char))
    (host : List Char)
    (hhost : passThru (hostLine host) = true)
    (hfirst : hasSub first hostKey = true → passThru first = true) :
    (build_requesthdrs (first :: rest) host).filter passThru =
      (if hasSub first hostKey then first else hostLine host) ::
        (consumedLines first rest).filter passThru := by
  simp only [build_requesthdrs, List.filter_append, filter_hdrLoop rest first]
  by_cases hf : hasSub first hostKey
  · simp [hf, List.filter_cons, hfirst hf]
  · simp [hf, List.filter_cons, hhost]

theorem c3_witness :
    (build_requesthdrs ["Host: a\r\n".toList, "X: y\r\n".toList, crlf]
        "h".toList).filter passThru =
      "Host: a\r\n".toList ::
        (consumedLines "Host: a\r\n".toList ["X: y\r\n".toList, crlf]).filter
          passThru := by
  have h := c3_amended "Host: a\r\n".toList ["X: y\r\n".toList, crlf]
    "h".toList (by decide) (fun _ => by decide)
  rw [h]
  decide

/-- Claim C3, counterexample: when the first client line `"X: y\r\n"` is not
a `"Host: "` line, the synthesized Host line is emitted but the first line
itself is discarded — it appears nowhere in the outbound block, although it
matches none of `"Host:"`, `"User-Agent:"`, `"Connection:"`. -/
theorem c3_counterexample :
    build_requesthdrs ["X: y\r\n".toList, crlf] "h".toList =
      [hostLine "h".toList, crlf] ∧
    hasSub "X: y\r\n".toList hostKey = false ∧
    hasSub "X: y\r\n".toList uaKey = false ∧
    hasSub "X: y\r\n".toList connKey = false ∧
    "X: y\r\n".toList ∉ build_requesthdrs ["X: y\r\n".toList, crlf]
      "h".toList := by decide

/-! ### The terminator line (claim C7) -/

theorem hdrLoop_crlf (s : List (List Char)) : hdrLoop crlf s = [] := by
  cases s <;> simp [hdrLoop]

theorem getLast_hdrLoop : ∀ (s : List (List Char)) (prev : List Char),
    prev ≠ crlf → crlf ∈ s → (hdrLoop prev s).getLast? = some crlf := by
  intro s
  induction s with
  | nil =>
    intro prev _ hm
    simp at hm
  | cons l rest ih =>
    intro prev hp hm
    by_cases hl : l = crlf
    · subst hl
      have hc : classifyLine crlf = [crlf] := by decide
      simp [hdrLoop, hp, hdrLoop_crlf, hc]
    · have hm' : crlf ∈ rest := by
        rcases List.mem_cons.mp hm with h | h
        · exact absurd h.symm hl
        · exact h
      have hlast := ih l hl hm'
      have hne : hdrLoop l rest ≠ [] := by
        intro e
        rw [e] at hlast
        simp at hlast
      simp only [hdrLoop, if_neg hp]
      rw [List.getLast?_append_of_ne_nil _ hne]
      exact hlast

/-- Claim C7, amended: the terminator line IS re-emitted.  When the first
client line is already the `"\r\n"` terminator the loop never runs and the
block is just the synthesized Host line; but whenever the first line is not
the terminator and the terminator appears later, the loop's default branch
appends the `"\r\n"` line itself, so the accumulated block ends with the
blank line (see `c7_counterexample`). -/
theorem c7_amended (host first : List Char) (rest : List (List Char)) :
    (∀ rest2 : List (List Char),
      build_requesthdrs (crlf :: rest2) host = [hostLine host]) ∧
    (first ≠ crlf → crlf ∈ rest →
      (build_requesthdrs (first :: rest) host).getLast? = some crlf) := by
  constructor
  · intro rest2
    have hno : hasSub crlf hostKey = false := by decide
    simp [build_requesthdrs, hno, hdrLoop_crlf]
  · intro h1 h2
    have hlast := getLast_hdrLoop rest first h1 h2
    have hne : hdrLoop first rest ≠ [] := by
      intro e
      rw [e] at hlast
      simp at hlast
    simp only [build_requesthdrs]
    rw [List.getLast?_append_of_ne_nil _ hne]
    exact hlast

theorem c7_witness :
    (build_requesthdrs ["A: b\r\n".toList, crlf] "h".toList).getLast? =
      some crlf :=
  (c7_amended "h".toList "A: b\r\n".toList [crlf]).2 (by decide) (by decide)

/-- Claim C7, counterexample: for the stream `["A: b\r\n", "\r\n"]` the
function appends the terminator line: the outbound block is
`[Host line, "\r\n"]`, so its last appended line is the blank line —
contradicting the claim that the terminator is never re-emitted. -/
theorem c7_counterexample :
    build_requesthdrs ["A: b\r\n".toList, crlf] "h".toList =
      [hostLine "h".toList, crlf] ∧
    crlf ∈ build_requesthdrs ["A: b\r\n".toList, crlf] "h".toList := by decide

/-! ### Substring-containment classification (claim C9) -/

/-- Claim C9, amended: classification is indeed by substring containment
anywhere in the line — any loop line with `"User-Agent: "` anywhere becomes
the fixed user-agent line; any loop line with `"Connection: "` anywhere
becomes the forced close pair, unless it also contains `"User-Agent: "`,
which is tested first and takes precedence; `"Proxy-Connection: keep-alive"`
in particular becomes the pair; and the first client line is kept as the
Host line exactly when it contains `"Host: "` anywhere (otherwise it is
dropped and a Host line is synthesized).  The precedence proviso and the
first-line exemption are what the counterexample forces onto the original
claim. -/
theorem c9_amended :
    (∀ a b : List Char, classifyLine (a ++ uaKey ++ b) = [user_agent_hdr]) ∧
    (∀ a b : List Char, hasSub (a ++ connKey ++ b) uaKey = false →
      classifyLine (a ++ connKey ++ b) = [connLine, pconnLine]) ∧
    classifyLine "Proxy-Connection: keep-alive\r\n".toList =
      [connLine, pconnLine] ∧
    (∀ (first : List Char) (rest : List (List Char)) (host : List Char),
      ((∃ a b, first = a ++ hostKey ++ b) →
        build_requesthdrs (first :: rest) host =
          first :: hdrLoop first rest) ∧
      ((¬ ∃ a b, first = a ++ hostKey ++ b) →
        build_requesthdrs (first :: rest) host =
          hostLine host :: hdrLoop first rest)) := by
  refine ⟨?_, ?_, by decide, ?_⟩
  · intro a b
    have h : hasSub (a ++ uaKey ++ b) uaKey = true :=
      (hasSub_iff _ _).mpr ⟨a, b, rfl⟩
    simp only [classifyLine, h]
    simp
  · intro a b hua
    have h : hasSub (a ++ connKey ++ b) connKey = true :=
      (hasSub_iff _ _).mpr ⟨a, b, rfl⟩
    simp only [classifyLine, h, hua]
    simp
  · intro first rest host
    constructor
    · intro he
      have h : hasSub first hostKey = true := by
        rcases he with ⟨a, b, rfl⟩
        exact (hasSub_iff _ _).mpr ⟨a, b, rfl⟩
      simp [build_requesthdrs, h]
    · intro he
      have h : hasSub first hostKey = false := by
        rcases hh : hasSub first hostKey with _ | _
        · rfl
        · exact absurd ((hasSub_iff _ _).mp hh) he
      simp [build_requesthdrs, h]

theorem c9_witness :
    classifyLine ("Proxy-".toList ++ connKey ++ " keep-alive\r\n".toList) =
      [connLine, pconnLine] ∧
    build_requesthdrs ["Host: a\r\n".toList, crlf] "h".toList =
      "Host: a\r\n".toList :: hdrLoop "Host: a\r\n".toList [crlf] :=
  ⟨c9_amended.2.1 "Proxy-".toList " keep-alive\r\n".toList (by decide),
   (c9_amended.2.2.2 "Host: a\r\n".toList [crlf] "h".toList).1
     ⟨[], "a\r\n".toList, by decide⟩⟩

/-- Claim C9, counterexample: the first client line
`"Connection: keep-alive\r\n"` contains `"Connection: "` yet is NOT replaced
by the forced close pair — the first line is special-cased as the Host
check, so the line is dropped and no `Connection: close` appears at all. -/
theorem c9_counterexample :
    hasSub "Connection: keep-alive\r\n".toList connKey = true ∧
    build_requesthdrs ["Connection: keep-alive\r\n".toList, crlf]
        "h".toList = [hostLine "h".toList, crlf] ∧
    connLine ∉ build_requesthdrs ["Connection: keep-alive\r\n".toList, crlf]
      "h".toList := by decide

/-! ### Line terminators of synthesized lines (claim C10) -/

theorem getLast?_snoc (l : List Char) (a : Char) :
    (l ++ [a]).getLast? = some a := by
  rw [List.getLast?_append_cons]
  rfl

theorem mem_hdrLoop : ∀ (s : List (List Char)) (prev l : List Char),
    l ∈ hdrLoop prev s →
    l ∈ s ∨ l = user_agent_hdr ∨ l = connLine ∨ l = pconnLine := by
  intro s
  induction s with
  | nil =>
    intro prev l h
    simp [hdrLoop] at h
  | cons x rest ih =>
    intro prev l h
    by_cases hp : prev = crlf
    · simp [hdrLoop, hp] at h
    · simp only [hdrLoop, if_neg hp, List.mem_append] at h
      rcases h with h | h
      · unfold classifyLine at h
        by_cases h1 : hasSub x uaKey
        · simp [h1] at h
          exact Or.inr (Or.inl h)
        · by_cases h2 : hasSub x connKey
          · simp [h1, h2] at h
            rcases h with h | h
            · exact Or.inr (Or.inr (Or.inl h))
            · exact Or.inr (Or.inr (Or.inr h))
          · simp [h1, h2] at h
            subst h
            exact Or.inl (List.mem_cons_self _ _)
      · rcases ih x l h with h' | h'
        · exact Or.inl (List.mem_cons_of_mem _ h')
        · exact Or.inr h'

/-- Claim C10, confirmed: every line the proxy synthesizes — the request
line from `build_get`, the synthesized Host line, the fixed user-agent
line and the two forced close lines — ends in a bare `'\n'` and contains
no `'\r'` (given `'\r'`-free inputs, as produced by `sscanf %s` and
`parse_uri`); and every line of the outbound header block is either one of
those synthesized lines or a client line passed through byte-identical,
hence with its original ending. -/
theorem c10_line_endings :
    (∀ method path version : List Char,
      '\r' ∉ method → '\r' ∉ path → '\r' ∉ version →
      '\r' ∉ build_get method path version ∧
        (build_get method path version).getLast? = some '\n') ∧
    (∀ h : List Char, '\r' ∉ h →
      '\r' ∉ hostLine h ∧ (hostLine h).getLast? = some '\n') ∧
    ('\r' ∉ user_agent_hdr ∧ user_agent_hdr.getLast? = some '\n') ∧
    ('\r' ∉ connLine ∧ connLine.getLast? = some '\n') ∧
    ('\r' ∉ pconnLine ∧ pconnLine.getLast? = some '\n') ∧
    (∀ (first : List Char) (rest : List (List Char)) (host l : List Char),
      l ∈ build_requesthdrs (first :: rest) host →
      l ∈ first :: rest ∨ l = hostLine host ∨ l = user_agent_hdr ∨
        l = connLine ∨ l = pconnLine) := by
  refine ⟨?_, ?_, by decide, by decide, by decide, ?_⟩
  · intro method path version hm hp hv
    constructor
    · simp [build_get, List.mem_append, hm, hp, hv]
    · exact getLast?_snoc (method ++ [' '] ++ path ++ [' '] ++ version) '\n'
  · intro h hh
    constructor
    · simp [hostLine, hostKey, List.mem_append, hh]
    · exact getLast?_snoc (hostKey ++ h) '\n'
  · intro first rest host l hmem
    simp only [build_requesthdrs, List.mem_append] at hmem
    rcases hmem with hmem | hmem
    · by_cases hf : hasSub first hostKey
      · simp [hf] at hmem
        subst hmem
        exact Or.inl (List.mem_cons_self _ _)
      · simp [hf] at hmem
        subst hmem
        exact Or.inr (Or.inl rfl)
    · rcases mem_hdrLoop rest first l hmem with h' | h'
      · exact Or.inl (List.mem_cons_of_mem _ h')
      · exact Or.inr (Or.inr h')

theorem c10_witness :
    '\r' ∉ build_get "GET".toList "/".toList "HTTP/1.0".toList ∧
    (build_get "GET".toList "/".toList "HTTP/1.0".toList).getLast? =
      some '\n' :=
  c10_line_endings.1 "GET".toList "/".toList "HTTP/1.0".toList
    (by decide) (by decide) (by decide)

/-! ### Relay error classification (claim C4) -/

theorem read_n_send_append_good (g : List RelayEv)
    (hg : ∀ e ∈ g, e = RelayEv.chunk true) (t : List RelayEv) :
    read_n_send (g ++ t) = ((read_n_send t).1, g.length + (read_n_send t).2) := by
  induction g with
  | nil => simp
  | cons e g ih =>
    have he : e = RelayEv.chunk true := hg e (List.mem_cons_self _ _)
    subst he
    have hg' : ∀ x ∈ g, x = RelayEv.chunk true :=
      fun x hx => hg x (List.mem_cons_of_mem _ hx)
    rw [List.cons_append]
    rw [show read_n_send (RelayEv.chunk true :: (g ++ t)) =
        ((read_n_send (g ++ t)).1, (read_n_send (g ++ t)).2 + 1) from by
      simp [read_n_send]]
    rw [ih hg']
    simp only [Prod.mk.injEq, List.length_cons, eq_self_iff_true, true_and]
    omega

theorem read_n_send_err_shape : ∀ evs : List RelayEv,
    ((read_n_send evs).1 = RelayOut.err400 →
      ∃ g rest, (∀ e ∈ g, e = RelayEv.chunk true) ∧
        evs = g ++ RelayEv.chunk false :: rest) ∧
    ((read_n_send evs).1 = RelayOut.err502 →
      ∃ g rest, (∀ e ∈ g, e = RelayEv.chunk true) ∧
        evs = g ++ RelayEv.rerr :: rest) ∧
    ((read_n_send evs).1 = RelayOut.ok →
      ∃ g rest, (∀ e ∈ g, e = RelayEv.chunk true) ∧
        evs = g ++ RelayEv.eof :: rest) := by
  intro evs
  induction evs with
  | nil =>
    refine ⟨?_, ?_, ?_⟩ <;> intro h <;> simp [read_n_send] at h
  | cons e rest ih =>
    rcases e with ok | _ | _
    · rcases ok with _ | _
      · refine ⟨?_, ?_, ?_⟩ <;> intro h
        · exact ⟨[], rest, by simp, rfl⟩
        · simp [read_n_send] at h
        · simp [read_n_send] at h
      · refine ⟨?_, ?_, ?_⟩ <;> intro h
        · have h' : (read_n_send rest).1 = RelayOut.err400 := by
            simpa [read_n_send] using h
          rcases ih.1 h' with ⟨g, r2, hg, he⟩
          refine ⟨RelayEv.chunk true :: g, r2, ?_, by simp [he]⟩
          intro x hx
          rcases List.mem_cons.mp hx with h3 | h3
          · exact h3
          · exact hg x h3
        · have h' : (read_n_send rest).1 = RelayOut.err502 := by
            simpa [read_n_send] using h
          rcases ih.2.1 h' with ⟨g, r2, hg, he⟩
          refine ⟨RelayEv.chunk true :: g, r2, ?_, by simp [he]⟩
          intro x hx
          rcases List.mem_cons.mp hx with h3 | h3
          · exact h3
          · exact hg x h3
        · have h' : (read_n_send rest).1 = RelayOut.ok := by
            simpa [read_n_send] using h
          rcases ih.2.2 h' with ⟨g, r2, hg, he⟩
          refine ⟨RelayEv.chunk true :: g, r2, ?_, by simp [he]⟩
          intro x hx
          rcases List.mem_cons.mp hx with h3 | h3
          · exact h3
          · exact hg x h3
    · refine ⟨?_, ?_, ?_⟩ <;> intro h
      · simp [read_n_send] at h
      · simp [read_n_send] at h
      · exact ⟨[], rest, by simp, rfl⟩
    · refine ⟨?_, ?_, ?_⟩ <;> intro h
      · simp [read_n_send] at h
      · exact ⟨[], rest, by simp, rfl⟩
      · simp [read_n_send] at h

/-- Claim C4, confirmed: after any run of fully forwarded chunks, a short or
failed write stops the relay immediately with the 400 response (exactly
`g.length + 1` reads are performed — none after the failing write); a
negative read yields the 502 response; a zero read (clean end-of-stream)
completes with no error response; and conversely each outcome arises only
from a stream of exactly that shape. -/
theorem c4_relay (g evs rest : List RelayEv)
    (hg : ∀ e ∈ g, e = RelayEv.chunk true) :
    read_n_send (g ++ RelayEv.chunk false :: rest) =
      (RelayOut.err400, g.length + 1) ∧
    read_n_send (g ++ RelayEv.rerr :: rest) =
      (RelayOut.err502, g.length + 1) ∧
    read_n_send (g ++ RelayEv.eof :: rest) = (RelayOut.ok, g.length + 1) ∧
    ((read_n_send evs).1 = RelayOut.err400 →
      ∃ g2 rest2, (∀ e ∈ g2, e = RelayEv.chunk true) ∧
        evs = g2 ++ RelayEv.chunk false :: rest2) ∧
    ((read_n_send evs).1 = RelayOut.err502 →
      ∃ g2 rest2, (∀ e ∈ g2, e = RelayEv.chunk true) ∧
        evs = g2 ++ RelayEv.rerr :: rest2) ∧
    ((read_n_send evs).1 = RelayOut.ok →
      ∃ g2 rest2, (∀ e ∈ g2, e = RelayEv.chunk true) ∧
        evs = g2 ++ RelayEv.eof :: rest2) := by
  refine ⟨?_, ?_, ?_, (read_n_send_err_shape evs).1,
    (read_n_send_err_shape evs).2.1, (read_n_send_err_shape evs).2.2⟩ <;>
  · rw [read_n_send_append_good g hg]
    simp [read_n_send]

theorem c4_witness :
    read_n_send [RelayEv.chunk true, RelayEv.chunk false] =
      (RelayOut.err400, 2) :=
  (c4_relay [RelayEv.chunk true] [] [] (by decide)).1

/-! ### Case-insensitive method check (claim C8) -/

theorem lowN_ne_zero {n : Nat} (h : n ≠ 0) : lowN n ≠ 0 := by
  unfold lowN
  split <;> omega

theorem strcasecmpZ_eq_zero_iff : ∀ (a b : List Char),
    (∀ c ∈ a, c.toNat ≠ 0) → (∀ c ∈ b, c.toNat ≠ 0) →
    (strcasecmpZ a b = 0 ↔
      a.map (fun c => lowN c.toNat) = b.map (fun c => lowN c.toNat)) := by
  intro a
  induction a with
  | nil =>
    intro b _ hb
    cases b with
    | nil => simp [strcasecmpZ]
    | cons y ys =>
      have hy : lowN y.toNat ≠ 0 := lowN_ne_zero (hb y (List.mem_cons_self _ _))
      simp only [strcasecmpZ, List.map_nil, List.map_cons]
      constructor
      · intro h
        exfalso
        omega
      · intro h
        exact absurd h (by simp)
  | cons x xs ih =>
    intro b ha hb
    cases b with
    | nil =>
      have hx : lowN x.toNat ≠ 0 := lowN_ne_zero (ha x (List.mem_cons_self _ _))
      simp only [strcasecmpZ, List.map_cons, List.map_nil]
      constructor
      · intro h
        exfalso
        omega
      · intro h
        exact absurd h (by simp)
    | cons y ys =>
      have ha' : ∀ c ∈ xs, c.toNat ≠ 0 :=
        fun c hc => ha c (List.mem_cons_of_mem _ hc)
      have hb' : ∀ c ∈ ys, c.toNat ≠ 0 :=
        fun c hc => hb c (List.mem_cons_of_mem _ hc)
      by_cases hxy : lowN x.toNat = lowN y.toNat
      · rw [show strcasecmpZ (x :: xs) (y :: ys) = strcasecmpZ xs ys from by
          simp [strcasecmpZ, hxy]]
        rw [ih ys ha' hb']
        simp [List.cons.injEq, hxy]
      · rw [show strcasecmpZ (x :: xs) (y :: ys) =
            (lowN x.toNat : Int) - lowN y.toNat from by simp [strcasecmpZ, hxy]]
        constructor
        · intro h
          exfalso
          omega
        · intro h
          simp only [List.map_cons, List.cons.injEq] at h
          exact absurd h.1 hxy

/-- Claim C8, confirmed: `doit` sends the 501 response exactly when the
method token differs from `"GET"` under a case-insensitive (`tolower`-wise)
comparison; in particular `"get"` and `"GeT"` are accepted while `"POST"`
and `"GETT"` are rejected.  (Method tokens come from `sscanf %s` and are
NUL-free, which the hypothesis records.) -/
theorem c8_method_check :
    (∀ m : List Char, (∀ c ∈ m, c.toNat ≠ 0) →
      (sends501 m = false ↔
        m.map (fun c => lowN c.toNat) =
          "GET".toList.map (fun c => lowN c.toNat))) ∧
    sends501 "get".toList = false ∧
    sends501 "GeT".toList = false ∧
    sends501 "POST".toList = true ∧
    sends501 "GETT".toList = true := by
  refine ⟨?_, by decide, by decide, by decide, by decide⟩
  intro m hm
  have hGET : ∀ c ∈ "GET".toList, c.toNat ≠ 0 := by decide
  rw [← strcasecmpZ_eq_zero_iff m "GET".toList hm hGET]
  simp [sends501, bne]

theorem c8_witness :
    sends501 "GeT".toList = false :=
  (c8_method_check.1 "GeT".toList (by decide)).mpr (by decide)
